import Mathlib

/-!
Verification of the TYMX progress-and-split engine.

The embedding models the event-scoped state manipulated by the HTTP handlers
of the backend (`POST .../ping`, `.../undo`, `.../reset`, `.../disqualify`,
`GET .../leaderboard`).  All handlers operate on the documents of a single
event, so the model carries the state of one event: its status, its station
list, its athlete documents, and the `pings` and `splits` fact collections
restricted to that event.

Modelling decisions, stated once here:

* Timestamps are Firestore instants; the engine only ever compares them via
  `toMillis` subtraction, so a timestamp is modelled by its millisecond value
  (a `Nat`).
* A JS object used as a string-keyed map (`stationTimes`) is modelled by an
  insertion-ordered association list with pairwise-distinct keys; `objSet`
  and `objDelete` model property assignment and `delete`.
* The record store's `set(..., merge true)` merges the update into the
  stored document.  Scalar fields present in the update replace the stored
  values, absent fields are preserved, and a `FieldValue.delete()` entry
  removes its field.  A map-valued field is NOT replaced wholesale: a
  non-empty map in the update is deep-merged into the stored map — the
  update's keys overwrite their stored entries, stored keys absent from the
  update survive — while an empty map in the update overwrites the whole
  field, clearing every nested entry.  Consequences for the three athlete
  writers: the ping update spreads the entire stored `stationTimes` plus the
  new entry, so its merge coincides with replacement (`objSet`); reset
  writes the empty map, which clears the field (`freshAthlete`); undo writes
  a copy of the stored map with the undone key deleted, so when any other
  entry remains the deleted key's stored entry survives and the stored map
  is unchanged, and only when the copy is empty is the map cleared
  (`undoStationTimes`).
* `lastUpdatedAt` is a write-only audit field that no handler ever reads; it
  is omitted from the athlete document.
* The ping handler reads `athleteData.progress` as
  `typeof progress === "number" && progress >= 0 ? progress : 0`; the stored
  value is therefore modelled as an `Int` (a missing or non-numeric field
  behaves like a negative number at every site that reads it).
* JS array `sort` is required by the language standard to be stable; it is
  modelled by `List.mergeSort`, a stable merge sort, applied to the athlete
  documents in store iteration order.
-/

namespace Tymx

/-- One checkpoint of an event.  Only the stable `id` is ever read by the
engine; the display name and type/detail fields are presentation-only. -/
structure Station where
  id : String
deriving DecidableEq, Repr

/-- Millisecond value of a Firestore timestamp. -/
abbrev Millis := Nat

/-- One athlete document of an event.  `stationTimes` maps a station id to
the completion timestamp of that station. -/
structure Athlete where
  progress : Int
  stationTimes : List (String × Millis)
  status : String
  finishedAt : Option Millis
deriving DecidableEq, Repr

/-- A Ping fact of the `pings` collection (restricted to one event). -/
structure Ping where
  athleteId : String
  stationId : String
  stationIndex : Nat
  timestamp : Millis
deriving DecidableEq, Repr

/-- A Split fact of the `splits` collection (restricted to one event). -/
structure Split where
  athleteId : String
  stationId : String
  stationIndex : Nat
  startTimestamp : Millis
  endTimestamp : Millis
  durationMs : Int
deriving DecidableEq, Repr

/-- The state of one event: the event document's engine-relevant fields, the
athlete documents keyed by athlete id (in store iteration order), and the
two fact collections. -/
structure EventState where
  status : String
  stationList : List Station
  athletes : List (String × Athlete)
  pings : List Ping
  splits : List Split
deriving DecidableEq, Repr

/-- The typed failures of the handlers.  `alreadyFinished` belongs to the
specification's error taxonomy (§7) and is kept so that claims about it can
be stated; no handler of the implementation ever produces it.
`internalError` models the 500 response of a JS property access on
`undefined` (only reachable from states that violate the progress
invariant). -/
inductive ApiError where
  | eventNotActive
  | unknownStation
  | athleteNotFound
  | athleteDNF
  | outOfOrder (expectedStationId attemptedStationId : String)
  | duplicateCompletion (stationId : String)
  | alreadyFinished
  | nothingToUndo
  | internalError
deriving DecidableEq, Repr

/-- Decidable equality of handler results, for evaluating the model at
concrete inputs. -/
instance exceptDecEq {ε α : Type} [DecidableEq ε] [DecidableEq α] :
    DecidableEq (Except ε α) := fun x y =>
  match x, y with
  | .error e1, .error e2 =>
    if h : e1 = e2 then isTrue (by rw [h])
    else isFalse (fun hc => h (Except.error.inj hc))
  | .ok a1, .ok a2 =>
    if h : a1 = a2 then isTrue (by rw [h])
    else isFalse (fun hc => h (Except.ok.inj hc))
  | .error _, .ok _ => isFalse (fun hc => Except.noConfusion hc)
  | .ok _, .error _ => isFalse (fun hc => Except.noConfusion hc)

/-- Success payload of the ping handler. -/
structure PingOk where
  progress : Nat
  stationId : String
  stationIndex : Nat
  splitMs : Option Int
  finished : Bool
deriving DecidableEq, Repr

/-- Success payload of the undo handler. -/
structure UndoOk where
  undoneStationId : String
  newProgress : Nat
deriving DecidableEq, Repr

/-! ### JS object operations on association lists -/

/-- JS property assignment `obj[k] = v`: an existing key keeps its position
and is overwritten, a new key is appended in insertion order. -/
def objSet {α : Type} : List (String × α) → String → α → List (String × α)
  | [], k, v => [(k, v)]
  | p :: m, k, v => if p.1 = k then (k, v) :: m else p :: objSet m k v

/-- JS `delete obj[k]`. -/
def objDelete {α : Type} (m : List (String × α)) (k : String) :
    List (String × α) :=
  m.filter (fun p => !(p.1 == k))

/-! ### The station catalog -/

/-- The `stationIndexMap` built by the ping handler: station id to zero-based
index, a later duplicate id overwriting an earlier index (`forEach` with
assignment).  `none` exactly when `stationId in stationIndexMap` fails. -/
def stationIndexOf : List Station → String → Option Nat
  | [], _ => none
  | s :: rest, sid =>
    match stationIndexOf rest sid with
    | some i => some (i + 1)
    | none => if s.id = sid then some 0 else none

/-- The read `typeof progress === "number" && progress >= 0 ? progress : 0`
performed by the ping and leaderboard handlers. -/
def effProgress (a : Athlete) : Nat := a.progress.toNat

/-- The read `athleteData.status || "ready"`: the empty string stands for a
missing or falsy stored status. -/
def effStatus (a : Athlete) : String :=
  if a.status = "" then "ready" else a.status

/-- The expression `stationList[progress] || stationList[stationList.length - 1]`
of the ping handler.  The dummy default is only reached when the station
list is empty, which the unknown-station check rules out before this
expression is evaluated. -/
def expectedStation (l : List Station) (progress : Nat) : Station :=
  match l[progress]? with
  | some s => s
  | none => (l[l.length - 1]?).getD ⟨""⟩

/-! ### RecordPing -/

/-- The athlete update written by a successful ping (lines 236-255 of the
handler): progress is incremented, the station's completion time recorded,
and the status advanced to `finished` (with `finishedAt`) or from `ready`
to `active`. -/
def pingAthlete (st : EventState) (a : Athlete) (stationId : String)
    (now : Millis) : Athlete :=
  let nextProgress := effProgress a + 1
  let isFinished : Bool := decide (st.stationList.length ≤ nextProgress)
  { progress := (nextProgress : Int)
    stationTimes := objSet a.stationTimes stationId now
    status :=
      if isFinished then "finished"
      else if effStatus a = "ready" then "active" else a.status
    finishedAt := if isFinished then some now else a.finishedAt }

/-- The tail of the ping handler after all checks have passed: write the
athlete update and return the response. -/
def pingFinish (st : EventState) (athleteId stationId : String)
    (stationIndex : Nat) (a : Athlete) (now : Millis) (pings' : List Ping)
    (durationMs : Option Int) (splits' : List Split) :
    EventState × Except ApiError PingOk :=
  let nextProgress := effProgress a + 1
  let isFinished : Bool := decide (st.stationList.length ≤ nextProgress)
  ({ st with
      athletes := objSet st.athletes athleteId (pingAthlete st a stationId now)
      pings := pings'
      splits := splits' },
   .ok { progress := nextProgress, stationId := stationId,
         stationIndex := stationIndex, splitMs := durationMs,
         finished := isFinished })

/-- `POST /api/events/:eventId/ping` with body `(athleteId, stationId)`, at
server time `now`.  Returns the state after the request together with the
response.  Event existence is implicit (the model is the state of one
event); the eventNotActive, unknown-station, athlete-not-found, dnf,
out-of-order and duplicate checks and the ping/split/athlete writes follow
the handler line by line.  In the `internalError` branch the JS handler has
already written the ping fact when `previousStation.id` throws, so that
branch keeps the appended ping. -/
def recordPing (st : EventState) (athleteId stationId : String)
    (now : Millis) : EventState × Except ApiError PingOk :=
  if st.status ≠ "active" then (st, .error .eventNotActive)
  else
    match stationIndexOf st.stationList stationId with
    | none => (st, .error .unknownStation)
    | some stationIndex =>
      match st.athletes.lookup athleteId with
      | none => (st, .error .athleteNotFound)
      | some a =>
        if effStatus a = "dnf" then (st, .error .athleteDNF)
        else
          let progress := effProgress a
          let expectedId := (expectedStation st.stationList progress).id
          if stationId ≠ expectedId then
            (st, .error (.outOfOrder expectedId stationId))
          else if (a.stationTimes.lookup stationId).isSome then
            (st, .error (.duplicateCompletion stationId))
          else
            let pings' :=
              st.pings ++ [⟨athleteId, stationId, stationIndex, now⟩]
            if 0 < progress then
              match st.stationList[progress - 1]? with
              | none => ({ st with pings := pings' }, .error .internalError)
              | some prevStation =>
                match a.stationTimes.lookup prevStation.id with
                | some previousTime =>
                  let d : Int := (now : Int) - (previousTime : Int)
                  pingFinish st athleteId stationId stationIndex a now pings'
                    (some d)
                    (st.splits ++
                      [⟨athleteId, stationId, stationIndex, previousTime,
                        now, d⟩])
                | none =>
                  pingFinish st athleteId stationId stationIndex a now pings'
                    none st.splits
            else
              pingFinish st athleteId stationId stationIndex a now pings'
                none st.splits

/-! ### Admin corrector -/

/-- The `stationTimes` value actually stored by the undo write.  The handler
deletes the undone key from a copy of the stored map and puts the copy in
the update committed with `set(..., merge true)`.  When the copy is
non-empty the store deep-merges it: every surviving key is rewritten with
its unchanged value and the deleted key keeps its stored entry, so the
stored map comes out exactly unchanged.  Only when the copy is empty does
the empty map overwrite the field and clear it. -/
def undoStationTimes (m : List (String × Millis)) (k : String) :
    List (String × Millis) :=
  if (objDelete m k).isEmpty then [] else m

/-- The athlete update written by a successful undo: decrement progress and
revert `finished` to `active` (clearing `finishedAt`); any other status is
left untouched.  The undone station's completion time is dropped only when
it was the sole entry of `stationTimes` — otherwise the merge write leaves
the stored map unchanged (see `undoStationTimes`). -/
def undoAthlete (a : Athlete) (lastStation : Station) : Athlete :=
  { progress := ((a.progress.toNat - 1 : Nat) : Int)
    stationTimes := undoStationTimes a.stationTimes lastStation.id
    status := if a.status = "finished" then "active" else a.status
    finishedAt := if a.status = "finished" then none else a.finishedAt }

/-- `POST /api/events/:eventId/athletes/:athleteId/undo`.  Normalizes
progress exactly as the handler does (`> 0 ? progress : 0`, then reject at
`<= 0`), resolves the last completed station from the station list, deletes
the matching ping and split facts, decrements progress, and reverts
`finished` to `active`.  The station's completion time is removed only from
the in-memory copy the handler writes back; the merge write stores it as
described at `undoStationTimes`.  The `internalError` branch is the JS
throw on `lastStation.id` when `progress - 1` is out of range; it happens
before the batch commit, so nothing is written. -/
def undo (st : EventState) (athleteId : String) :
    EventState × Except ApiError UndoOk :=
  match st.athletes.lookup athleteId with
  | none => (st, .error .athleteNotFound)
  | some a =>
    if a.progress ≤ 0 then (st, .error .nothingToUndo)
    else
      let undoIndex := a.progress.toNat - 1
      match st.stationList[undoIndex]? with
      | none => (st, .error .internalError)
      | some lastStation =>
        let stationId := lastStation.id
        let pings' := st.pings.filter
          (fun p => !(p.athleteId == athleteId && p.stationId == stationId))
        let splits' := st.splits.filter
          (fun s => !(s.athleteId == athleteId && s.stationId == stationId))
        ({ st with
            athletes := objSet st.athletes athleteId (undoAthlete a lastStation)
            pings := pings'
            splits := splits' },
         .ok ⟨stationId, undoIndex⟩)

/-- The athlete document written by reset. -/
def freshAthlete : Athlete :=
  { progress := 0, stationTimes := [], status := "ready",
    finishedAt := none }

/-- `POST /api/events/:eventId/athletes/:athleteId/reset`: delete every ping
and split fact of the athlete and write the fresh athlete document (every
engine-relevant field is listed in the update, `finishedAt` via
`FieldValue.delete()`).  The write creates the document when absent. -/
def reset (st : EventState) (athleteId : String) : EventState :=
  { st with
      athletes := objSet st.athletes athleteId freshAthlete
      pings := st.pings.filter (fun p => !(p.athleteId == athleteId))
      splits := st.splits.filter (fun s => !(s.athleteId == athleteId)) }

/-- `POST /api/events/:eventId/athletes/:athleteId/disqualify`: a merge
write of `status = "dnf"` alone.  When the athlete document is absent the
write creates a document holding only the status; its missing numeric
progress is represented by `-1` (any non-number behaves identically at
every read site). -/
def disqualify (st : EventState) (athleteId : String) : EventState :=
  match st.athletes.lookup athleteId with
  | some a =>
    { st with athletes := objSet st.athletes athleteId ({ a with status := "dnf" }) }
  | none =>
    let fresh : Athlete :=
      { progress := -1, stationTimes := [], status := "dnf",
        finishedAt := none }
    { st with athletes := objSet st.athletes athleteId fresh }

/-! ### Leaderboard -/

/-- Total split milliseconds of one athlete, `null` when the athlete has no
split facts (`totals[a.athleteId] ?? null`). -/
def totalMsOf (splits : List Split) (athleteId : String) : Option Int :=
  let mine := splits.filter (fun s => s.athleteId == athleteId)
  if mine.isEmpty then none
  else some (mine.foldl (fun acc s => acc + s.durationMs) 0)

/-- One row assembled by the leaderboard handler before sorting. -/
structure LBEntry where
  athleteId : String
  progress : Nat
  status : String
  finishedAt : Option Millis
  totalMs : Option Int
deriving DecidableEq, Repr

/-- The leaderboard row of one athlete document. -/
def lbEntry (splits : List Split) (p : String × Athlete) : LBEntry :=
  { athleteId := p.1
    progress := effProgress p.2
    status := effStatus p.2
    finishedAt := p.2.finishedAt
    totalMs := totalMsOf splits p.1 }

/-- The comparator passed to `athletes.sort`: progress descending, then
total milliseconds ascending when both rows have a total, otherwise leave
the pair as ordered. -/
def lbCompare (a b : LBEntry) : Int :=
  if b.progress ≠ a.progress then (b.progress : Int) - (a.progress : Int)
  else
    match a.totalMs, b.totalMs with
    | some ta, some tb => ta - tb
    | _, _ => 0

/-- The comparator as the switch of the stable sort: `a` may precede `b`. -/
def lbLE (a b : LBEntry) : Bool := decide (lbCompare a b ≤ 0)

/-- `GET /api/events/:eventId/leaderboard`: build one row per athlete, sort
stably by the comparator, then assign `rank = index + 1`. -/
def leaderboard (st : EventState) : List (LBEntry × Nat) :=
  let entries := st.athletes.map (lbEntry st.splits)
  let sorted := List.mergeSort entries lbLE
  sorted.enum.map (fun p => (p.2, p.1 + 1))

/-! ### Operation sequences, for reachability claims -/

/-- The operations of claim C2. -/
inductive Op where
  | ping (athleteId stationId : String) (now : Millis)
  | undo (athleteId : String)
  | reset (athleteId : String)
deriving DecidableEq, Repr

/-- Apply one operation, keeping the state component of the response. -/
def execOp (st : EventState) : Op → EventState
  | .ping aid sid now => (recordPing st aid sid now).1
  | .undo aid => (Tymx.undo st aid).1
  | .reset aid => Tymx.reset st aid

/-- Apply a sequence of operations from the left. -/
def execOps (st : EventState) (ops : List Op) : EventState :=
  ops.foldl execOp st

/-- The contiguous-prefix invariant: progress counts exactly the stations
whose completion timestamps are present, and those form a prefix of the
station sequence — a station has a recorded time exactly when its index is
below progress. -/
def prefixInv (stations : List Station) (a : Athlete) : Prop :=
  0 ≤ a.progress ∧ a.progress ≤ (stations.length : Int) ∧
  ∀ i : Nat, ∀ s : Station, stations[i]? = some s →
    ((a.stationTimes.lookup s.id).isSome ↔ (i : Int) < a.progress)

/-- The previously recorded completion time consulted by the split
computation of the ping handler: the `stationTimes` entry of the station
immediately preceding the athlete's current progress. -/
def prevTimeOf (st : EventState) (a : Athlete) : Option Millis :=
  if effProgress a = 0 then none
  else
    match st.stationList[effProgress a - 1]? with
    | none => none
    | some prevStation => a.stationTimes.lookup prevStation.id

/-! ### Association-list lemmas -/

theorem lookup_cons' {α : Type} (p : String × α) (m : List (String × α))
    (k : String) :
    ((p :: m).lookup k) = if k = p.1 then some p.2 else m.lookup k := by
  obtain ⟨a, b⟩ := p
  by_cases h : k = a
  · subst h
    simp
  · have hb : (k == a) = false := by
      simpa using h
    simp [List.lookup_cons, hb, h]

theorem lookup_objSet {α : Type} (m : List (String × α)) (k k' : String)
    (v : α) :
    (objSet m k v).lookup k' = if k' = k then some v else m.lookup k' := by
  induction m with
  | nil =>
    rw [objSet, lookup_cons']
  | cons p m ih =>
    by_cases h1 : p.1 = k
    · rw [objSet, if_pos h1, lookup_cons', lookup_cons']
      by_cases h2 : k' = k
      · simp [h2]
      · have h3 : ¬ k' = p.1 := fun e => h2 (e.trans h1)
        simp [h2, h3]
    · rw [objSet, if_neg h1, lookup_cons', lookup_cons', ih]
      by_cases h2 : k' = p.1
      · have h3 : ¬ k' = k := fun e => h1 ((h2.symm.trans e) ▸ rfl)
        simp [h1, h2, h3]
      · simp [h2]

theorem mem_objSet {α : Type} {m : List (String × α)} {k : String} {v : α}
    {q : String × α} (h : q ∈ objSet m k v) : q = (k, v) ∨ q ∈ m := by
  induction m with
  | nil => simpa [objSet] using h
  | cons p m ih =>
    by_cases h1 : p.1 = k
    · simp only [objSet, if_pos h1, List.mem_cons] at h
      rcases h with h | h
      · exact Or.inl h
      · exact Or.inr (List.mem_cons_of_mem _ h)
    · simp only [objSet, if_neg h1, List.mem_cons] at h
      rcases h with h | h
      · exact Or.inr (h ▸ List.mem_cons_self _ _)
      · rcases ih h with h | h
        · exact Or.inl h
        · exact Or.inr (List.mem_cons_of_mem _ h)

theorem objSet_of_lookup_none {α : Type} {m : List (String × α)} {k : String}
    (h : m.lookup k = none) (v : α) : objSet m k v = m ++ [(k, v)] := by
  induction m with
  | nil => simp [objSet]
  | cons p m ih =>
    rw [lookup_cons'] at h
    by_cases h1 : k = p.1
    · simp [h1] at h
    · rw [if_neg h1] at h
      rw [objSet, if_neg (Ne.symm h1), ih h, List.cons_append]

theorem lookup_objDelete {α : Type} (m : List (String × α)) (k k' : String) :
    (objDelete m k).lookup k' = if k' = k then none else m.lookup k' := by
  induction m with
  | nil => simp [objDelete]
  | cons p m ih =>
    unfold objDelete at ih ⊢
    by_cases h1 : p.1 = k
    · rw [List.filter_cons_of_neg (by simp [h1])]
      rw [ih, lookup_cons']
      by_cases h2 : k' = k
      · simp [h2]
      · have h3 : ¬ k' = p.1 := fun e => h2 (e.trans h1)
        simp [h2, h3]
    · rw [List.filter_cons_of_pos (by simp [h1])]
      rw [lookup_cons', lookup_cons', ih]
      by_cases h2 : k' = p.1
      · have h3 : ¬ k' = k := fun e => h1 ((h2.symm.trans e) ▸ rfl)
        simp [h1, h2, h3]
      · simp [h2]

theorem objDelete_of_lookup_none {α : Type} {m : List (String × α)}
    {k : String} (h : m.lookup k = none) : objDelete m k = m := by
  rw [List.lookup_eq_none_iff] at h
  unfold objDelete
  rw [List.filter_eq_self]
  intro p hp
  simpa using Ne.symm (by simpa using h p hp)

theorem objDelete_append {α : Type} (m m' : List (String × α)) (k : String) :
    objDelete (m ++ m') k = objDelete m k ++ objDelete m' k := by
  unfold objDelete
  rw [List.filter_append]

/-! ### Station catalog lemmas -/

theorem stationIndexOf_lt_length {l : List Station} {sid : String} {i : Nat}
    (h : stationIndexOf l sid = some i) : i < l.length := by
  induction l generalizing i with
  | nil => simp [stationIndexOf] at h
  | cons s rest ih =>
    rw [stationIndexOf] at h
    match hrec : stationIndexOf rest sid with
    | some j =>
      rw [hrec] at h
      cases h
      exact Nat.succ_lt_succ (ih hrec)
    | none =>
      rw [hrec] at h
      by_cases hs : s.id = sid
      · rw [if_pos hs] at h
        cases h
        exact Nat.succ_pos _
      · rw [if_neg hs] at h
        cases h

theorem stationIndexOf_get {l : List Station} {sid : String} {i : Nat}
    (h : stationIndexOf l sid = some i) :
    ∃ s : Station, l[i]? = some s ∧ s.id = sid := by
  induction l generalizing i with
  | nil => simp [stationIndexOf] at h
  | cons s rest ih =>
    rw [stationIndexOf] at h
    match hrec : stationIndexOf rest sid with
    | some j =>
      rw [hrec] at h
      cases h
      obtain ⟨t, ht, hid⟩ := ih hrec
      exact ⟨t, by simpa using ht, hid⟩
    | none =>
      rw [hrec] at h
      by_cases hs : s.id = sid
      · rw [if_pos hs] at h
        cases h
        exact ⟨s, by simp, hs⟩
      · rw [if_neg hs] at h
        cases h

theorem stationIndexOf_of_nodup {l : List Station}
    (hids : (l.map Station.id).Nodup) {i : Nat} {s : Station}
    (hs : l[i]? = some s) : stationIndexOf l s.id = some i := by
  induction l generalizing i with
  | nil => simp at hs
  | cons t rest ih =>
    rw [List.map_cons, List.nodup_cons] at hids
    obtain ⟨hnotin, hrest⟩ := hids
    cases i with
    | zero =>
      rw [List.getElem?_cons_zero] at hs
      cases hs
      have hnone : stationIndexOf rest s.id = none := by
        match hrec : stationIndexOf rest s.id with
        | none => rfl
        | some j =>
          obtain ⟨u, hu, huid⟩ := stationIndexOf_get hrec
          exact absurd (huid ▸ (List.mem_map_of_mem Station.id
            (List.getElem?_mem hu))) hnotin
      rw [stationIndexOf, hnone, if_pos rfl]
    | succ i =>
      rw [List.getElem?_cons_succ] at hs
      rw [stationIndexOf, ih hrest hs]

theorem nodup_id_eq_iff {l : List Station}
    (hids : (l.map Station.id).Nodup) {i j : Nat} {s t : Station}
    (hs : l[i]? = some s) (ht : l[j]? = some t) :
    s.id = t.id ↔ i = j := by
  constructor
  · intro hid
    have h1 := stationIndexOf_of_nodup hids hs
    have h2 := stationIndexOf_of_nodup hids ht
    rw [hid] at h1
    exact Option.some_inj.mp (h1.symm.trans h2)
  · intro hij
    rw [hij] at hs
    rw [hs] at ht
    cases ht
    rfl

/-! ### The successful ping, in closed form -/

/-- A ping of the station at index `progress` by a live athlete of an active
event takes the success path: the handler appends the ping fact, emits a
split exactly when the preceding station's time is recorded, and writes the
`pingAthlete` update. -/
theorem recordPing_success_eq (st : EventState) (athleteId sid : String)
    (now : Millis) (a : Athlete) (s : Station)
    (hact : st.status = "active")
    (hids : (st.stationList.map Station.id).Nodup)
    (ha : st.athletes.lookup athleteId = some a)
    (hdnf : effStatus a ≠ "dnf")
    (hs : st.stationList[effProgress a]? = some s)
    (hsid : sid = s.id)
    (hfresh : a.stationTimes.lookup sid = none) :
    recordPing st athleteId sid now =
      ({ st with
          athletes := objSet st.athletes athleteId (pingAthlete st a sid now)
          pings := st.pings ++ [⟨athleteId, sid, effProgress a, now⟩]
          splits := st.splits ++
            (match prevTimeOf st a with
              | some t =>
                [⟨athleteId, sid, effProgress a, t, now,
                  (now : Int) - (t : Int)⟩]
              | none => []) },
       .ok { progress := effProgress a + 1, stationId := sid,
             stationIndex := effProgress a,
             splitMs := (prevTimeOf st a).map
               (fun t => (now : Int) - (t : Int)),
             finished := decide (st.stationList.length ≤ effProgress a + 1) }) := by
  have hk : stationIndexOf st.stationList sid = some (effProgress a) := by
    rw [hsid]
    exact stationIndexOf_of_nodup hids hs
  have hplen : effProgress a < st.stationList.length :=
    stationIndexOf_lt_length hk
  have hexp : expectedStation st.stationList (effProgress a) = s := by
    rw [expectedStation, hs]
  rw [recordPing, if_neg (by simp [hact]), hk, ha]
  dsimp only
  rw [if_neg hdnf, hexp, ← hsid, if_neg (by simp : ¬ sid ≠ sid), hfresh]
  rw [if_neg (by simp : ¬ (none : Option Millis).isSome = true)]
  by_cases hp : 0 < effProgress a
  · rw [if_pos hp]
    have hp1 : effProgress a - 1 < st.stationList.length := by omega
    have hpt : prevTimeOf st a =
        a.stationTimes.lookup (st.stationList[effProgress a - 1]).id := by
      rw [prevTimeOf, if_neg (by omega), List.getElem?_eq_getElem hp1]
    rw [List.getElem?_eq_getElem hp1, hpt]
    dsimp only
    cases hlook : a.stationTimes.lookup (st.stationList[effProgress a - 1]).id with
    | some t => simp [pingFinish]
    | none => simp [pingFinish]
  · rw [if_neg hp]
    have hpt : prevTimeOf st a = none := by
      rw [prevTimeOf, if_pos (by omega)]
    rw [hpt, pingFinish]
    simp

theorem lookup_mem {α : Type} {m : List (String × α)} {k : String} {v : α}
    (h : m.lookup k = some v) : (k, v) ∈ m := by
  rw [List.lookup_eq_some_iff] at h
  obtain ⟨l₁, l₂, rfl, -⟩ := h
  exact List.mem_append_right _ (List.mem_cons_self _ _)

/-! ### The successful undo, in closed form -/

theorem undo_success_eq (st : EventState) (athleteId : String) (a : Athlete)
    (lastStation : Station)
    (ha : st.athletes.lookup athleteId = some a)
    (hpos : 0 < a.progress)
    (hlast : st.stationList[a.progress.toNat - 1]? = some lastStation) :
    undo st athleteId =
      ({ st with
          athletes := objSet st.athletes athleteId (undoAthlete a lastStation)
          pings := st.pings.filter (fun p =>
            !(p.athleteId == athleteId && p.stationId == lastStation.id))
          splits := st.splits.filter (fun s =>
            !(s.athleteId == athleteId && s.stationId == lastStation.id)) },
       .ok ⟨lastStation.id, a.progress.toNat - 1⟩) := by
  rw [undo, ha]
  dsimp only
  rw [if_neg (by omega), hlast]

/-! ### Frame lemmas: which state components each operation can touch -/

theorem recordPing_frame (st : EventState) (athleteId sid : String)
    (now : Millis) :
    ((recordPing st athleteId sid now).1.stationList = st.stationList ∧
     (recordPing st athleteId sid now).1.status = st.status) ∧
    ((recordPing st athleteId sid now).1.athletes = st.athletes ∨
      ∃ a, st.athletes.lookup athleteId = some a ∧ st.stationList ≠ [] ∧
        sid = (expectedStation st.stationList (effProgress a)).id ∧
        a.stationTimes.lookup sid = none ∧
        (recordPing st athleteId sid now).1.athletes =
          objSet st.athletes athleteId (pingAthlete st a sid now)) := by
  rw [recordPing]
  dsimp only
  split
  · exact ⟨⟨rfl, rfl⟩, Or.inl rfl⟩
  split
  · exact ⟨⟨rfl, rfl⟩, Or.inl rfl⟩
  next stationIndex hk =>
    split
    · exact ⟨⟨rfl, rfl⟩, Or.inl rfl⟩
    next a ha =>
      split
      · exact ⟨⟨rfl, rfl⟩, Or.inl rfl⟩
      next hdnf =>
        split
        · exact ⟨⟨rfl, rfl⟩, Or.inl rfl⟩
        next hexp =>
          split
          · exact ⟨⟨rfl, rfl⟩, Or.inl rfl⟩
          next hdup =>
            have hne : st.stationList ≠ [] :=
              List.length_pos.mp
                (Nat.lt_of_le_of_lt (Nat.zero_le _)
                  (stationIndexOf_lt_length hk))
            have hexp' : sid = (expectedStation st.stationList
                (effProgress a)).id := not_ne_iff.mp hexp
            have hfresh : a.stationTimes.lookup sid = none := by
              cases h : a.stationTimes.lookup sid with
              | none => rfl
              | some t => exact absurd (by rw [h]; rfl) hdup
            split
            · split
              · exact ⟨⟨rfl, rfl⟩, Or.inl rfl⟩
              · split <;>
                  exact ⟨⟨rfl, rfl⟩,
                    Or.inr ⟨a, ha, hne, hexp', hfresh, rfl⟩⟩
            · exact ⟨⟨rfl, rfl⟩,
                Or.inr ⟨a, ha, hne, hexp', hfresh, rfl⟩⟩

theorem undo_frame (st : EventState) (athleteId : String) :
    ((undo st athleteId).1.stationList = st.stationList ∧
     (undo st athleteId).1.status = st.status) ∧
    ((undo st athleteId).1.athletes = st.athletes ∨
      ∃ a lastStation, st.athletes.lookup athleteId = some a ∧
        0 < a.progress ∧
        st.stationList[a.progress.toNat - 1]? = some lastStation ∧
        (undo st athleteId).1.athletes =
          objSet st.athletes athleteId (undoAthlete a lastStation)) := by
  rw [undo]
  dsimp only
  split
  · exact ⟨⟨rfl, rfl⟩, Or.inl rfl⟩
  next a ha =>
    split
    · exact ⟨⟨rfl, rfl⟩, Or.inl rfl⟩
    next hpos =>
      split
      · exact ⟨⟨rfl, rfl⟩, Or.inl rfl⟩
      next lastStation hlast =>
        exact ⟨⟨rfl, rfl⟩,
          Or.inr ⟨a, lastStation, ha, by omega, hlast, rfl⟩⟩

/-! ### The contiguous-prefix invariant under the single writers

Ping and reset preserve the invariant; undo does not — the merge write of
the undo handler leaves the undone station's stored timestamp whenever any
other entry remains, although the handler's own banner says "no ghost
stationTimes".  The failure is exhibited at claim C2. -/

theorem pingAthlete_prefixInv {st : EventState} {a : Athlete} {sid : String}
    (now : Millis)
    (hids : (st.stationList.map Station.id).Nodup)
    (hinv : prefixInv st.stationList a)
    (hne : st.stationList ≠ [])
    (hexp : sid = (expectedStation st.stationList (effProgress a)).id)
    (hfresh : a.stationTimes.lookup sid = none) :
    prefixInv st.stationList (pingAthlete st a sid now) := by
  obtain ⟨hnn, hle, hiff⟩ := hinv
  have hpnat : a.progress = ((effProgress a : Nat) : Int) := by
    unfold effProgress
    omega
  have hlen : 0 < st.stationList.length := List.length_pos.mpr hne
  have hplen : effProgress a < st.stationList.length := by
    by_contra hcon
    have hnone : st.stationList[effProgress a]? = none :=
      List.getElem?_eq_none (by omega)
    obtain ⟨sl, hlast⟩ : ∃ sl,
        st.stationList[st.stationList.length - 1]? = some sl :=
      ⟨_, List.getElem?_eq_getElem (by omega)⟩
    have hexp2 : expectedStation st.stationList (effProgress a) = sl := by
      rw [expectedStation, hnone, hlast]
      rfl
    have hsome := (hiff (st.stationList.length - 1) _ hlast).mpr (by omega)
    rw [← hexp2, ← hexp, hfresh] at hsome
    simp at hsome
  obtain ⟨sp, hs⟩ : ∃ sp, st.stationList[effProgress a]? = some sp :=
    ⟨_, List.getElem?_eq_getElem hplen⟩
  have hexp3 : expectedStation st.stationList (effProgress a) = sp := by
    rw [expectedStation, hs]
  rw [hexp3] at hexp
  refine ⟨?_, ?_, ?_⟩
  · simp only [pingAthlete]
    omega
  · simp only [pingAthlete]
    omega
  · intro i t hti
    simp only [pingAthlete, lookup_objSet]
    by_cases hid : t.id = sid
    · have : i = effProgress a :=
        (nodup_id_eq_iff hids hti hs).mp (by rw [hid, hexp])
      rw [if_pos hid]
      simp
      omega
    · have hine : ¬ i = effProgress a := fun h => by
        refine hid ?_
        rw [(nodup_id_eq_iff hids hti hs).mpr h, ← hexp]
      rw [if_neg hid]
      rw [hiff i t hti]
      omega

theorem freshAthlete_prefixInv (stations : List Station) :
    prefixInv stations freshAthlete := by
  refine ⟨le_refl _, by simp [freshAthlete], ?_⟩
  intro i t hti
  simp [freshAthlete]

theorem execOp_stationList (st : EventState) (op : Op) :
    (execOp st op).stationList = st.stationList := by
  cases op with
  | ping aid sid now => exact (recordPing_frame st aid sid now).1.1
  | undo aid => exact (undo_frame st aid).1.1
  | reset aid => rfl

theorem execOps_stationList (st : EventState) (ops : List Op) :
    (execOps st ops).stationList = st.stationList := by
  induction ops generalizing st with
  | nil => rfl
  | cons op ops ih =>
    rw [execOps, List.foldl_cons, ← execOps]
    rw [ih, execOp_stationList]

/-! ### Stable merge sort under a total (not necessarily transitive)
comparator: adjacent elements of the output are always ordered.  The
leaderboard comparator is total but not transitive (rows without a total
compare as equal to everything of the same progress), so the library's
`sorted_mergeSort` does not apply; adjacent sortedness is what the sort
does guarantee. -/

theorem head?_merge_or {α : Type} (le : α → α → Bool) (l₁ l₂ : List α) :
    (List.merge l₁ l₂ le).head? = l₁.head? ∨
    (List.merge l₁ l₂ le).head? = l₂.head? := by
  match l₁, l₂ with
  | [], l₂ => right; simp
  | x :: l₁, [] => left; simp
  | x :: l₁, y :: l₂ =>
    rw [List.cons_merge_cons]
    split
    · left; rfl
    · right; rfl

theorem chain'_merge {α : Type} (le : α → α → Bool)
    (htot : ∀ a b, (le a b || le b a) = true) :
    ∀ (l₁ l₂ : List α), l₁.Chain' (fun a b => le a b = true) →
      l₂.Chain' (fun a b => le a b = true) →
      (List.merge l₁ l₂ le).Chain' (fun a b => le a b = true) := by
  intro l₁
  induction l₁ with
  | nil => intro l₂ _ h₂; simpa using h₂
  | cons x l₁ ih₁ =>
    intro l₂
    induction l₂ with
    | nil => intro h₁ _; simpa using h₁
    | cons y l₂ ih₂ =>
      intro h₁ h₂
      rw [List.cons_merge_cons]
      by_cases h : le x y = true
      · rw [if_pos h]
        refine List.chain'_cons'.mpr ⟨?_, ih₁ (y :: l₂) h₁.tail h₂⟩
        intro z hz
        rcases head?_merge_or le l₁ (y :: l₂) with he | he
        · rw [he] at hz
          exact (List.chain'_cons'.mp h₁).1 z hz
        · rw [he] at hz
          simp only [List.head?_cons, Option.mem_def, Option.some_inj] at hz
          exact hz ▸ h
      · rw [if_neg h]
        have hyx : le y x = true := by
          have := htot x y
          simp only [Bool.or_eq_true] at this
          tauto
        refine List.chain'_cons'.mpr ⟨?_, ih₂ h₁ h₂.tail⟩
        intro z hz
        rcases head?_merge_or le (x :: l₁) l₂ with he | he
        · rw [he] at hz
          simp only [List.head?_cons, Option.mem_def, Option.some_inj] at hz
          exact hz ▸ hyx
        · rw [he] at hz
          exact (List.chain'_cons'.mp h₂).1 z hz

theorem chain'_mergeSort {α : Type} (le : α → α → Bool)
    (htot : ∀ a b, (le a b || le b a) = true) :
    ∀ (l : List α),
      (List.mergeSort l le).Chain' (fun a b => le a b = true)
  | [] => by simp
  | [a] => by simp
  | a :: b :: xs => by
    have h1 : (List.splitInTwo ⟨a :: b :: xs, rfl⟩).1.1.length <
        xs.length + 1 + 1 := by
      simp [List.splitInTwo_fst]
      omega
    have h2 : (List.splitInTwo ⟨a :: b :: xs, rfl⟩).2.1.length <
        xs.length + 1 + 1 := by
      simp [List.splitInTwo_snd]
      omega
    rw [List.mergeSort]
    exact chain'_merge le htot _ _
      (chain'_mergeSort le htot _) (chain'_mergeSort le htot _)
termination_by l => l.length

/-! ### Properties of the leaderboard comparator -/

theorem lbCompare_add (a b : LBEntry) : lbCompare a b + lbCompare b a = 0 := by
  unfold lbCompare
  by_cases h : b.progress = a.progress
  · rw [if_neg (by omega), if_neg (by omega)]
    cases a.totalMs <;> cases b.totalMs <;> simp
  · rw [if_pos (by omega), if_pos (by omega)]
    ring

theorem lbLE_total (a b : LBEntry) : (lbLE a b || lbLE b a) = true := by
  have h := lbCompare_add a b
  simp only [lbLE, Bool.or_eq_true, decide_eq_true_eq]
  omega

theorem lbLE_progress_le {a b : LBEntry} (h : lbLE a b = true) :
    b.progress ≤ a.progress := by
  simp only [lbLE, decide_eq_true_eq] at h
  unfold lbCompare at h
  by_cases hp : b.progress = a.progress
  · omega
  · rw [if_pos (by omega)] at h
    omega

theorem lbLE_totals_le {a b : LBEntry} {ta tb : Int} (h : lbLE a b = true)
    (hp : a.progress = b.progress) (hta : a.totalMs = some ta)
    (htb : b.totalMs = some tb) : ta ≤ tb := by
  simp only [lbLE, decide_eq_true_eq] at h
  unfold lbCompare at h
  rw [if_neg (by omega), hta, htb] at h
  dsimp only at h
  omega

/-- Along a leaderboard-ordered list, the total milliseconds are monotone
within a progress group, provided every row of that progress group carries
a total. -/
theorem sorted_totals_mono (L : List LBEntry)
    (hch : L.Chain' (fun a b => lbLE a b = true))
    (p : Nat) (hall : ∀ e ∈ L, e.progress = p → e.totalMs.isSome) :
    ∀ i (hi : i < L.length), (L.get ⟨i, hi⟩).progress = p →
      ∀ j, i ≤ j → ∀ (hj : j < L.length), (L.get ⟨j, hj⟩).progress = p →
      ∀ x y, (L.get ⟨i, hi⟩).totalMs = some x →
        (L.get ⟨j, hj⟩).totalMs = some y → x ≤ y := by
  have hpw : List.Pairwise
      (fun a b : LBEntry => b.progress ≤ a.progress) L := by
    haveI : IsTrans LBEntry (fun a b : LBEntry => b.progress ≤ a.progress) :=
      ⟨fun _ _ _ h1 h2 => le_trans h2 h1⟩
    exact List.chain'_iff_pairwise.mp
      (hch.imp (fun {a b} h => lbLE_progress_le h))
  rw [List.pairwise_iff_getElem] at hpw
  intro i hi hpi j
  induction j with
  | zero =>
    intro hij hj hpj x y hx hy
    have heq : L.get ⟨i, hi⟩ = L.get ⟨0, hj⟩ := by
      have hi0 : i = 0 := by omega
      subst hi0
      rfl
    rw [heq, hy] at hx
    exact le_of_eq (Option.some_inj.mp hx).symm
  | succ j ihj =>
    intro hij hj hpj x y hx hy
    by_cases hcase : i = j + 1
    · have heq : L.get ⟨i, hi⟩ = L.get ⟨j + 1, hj⟩ := by
        subst hcase
        rfl
      rw [heq, hy] at hx
      exact le_of_eq (Option.some_inj.mp hx).symm
    · have hijlt : i ≤ j := by omega
      have hjlt : j < L.length := by omega
      have hstep : (L.get ⟨j + 1, hj⟩).progress ≤
          (L.get ⟨j, hjlt⟩).progress := by
        have := hpw j (j + 1) hjlt hj (by omega)
        simpa [List.get_eq_getElem] using this
      have hup : (L.get ⟨j, hjlt⟩).progress ≤ (L.get ⟨i, hi⟩).progress := by
        rcases Nat.lt_or_ge i j with hlt | hge
        · have := hpw i j hi hjlt hlt
          simpa [List.get_eq_getElem] using this
        · have hij' : i = j := by omega
          subst hij'
          exact le_refl _
      have hpj' : (L.get ⟨j, hjlt⟩).progress = p := by omega
      have hsome := hall (L.get ⟨j, hjlt⟩) (L.get_mem _ _) hpj'
      obtain ⟨t, ht⟩ := Option.isSome_iff_exists.mp hsome
      have hxt : x ≤ t := ihj hijlt hjlt hpj' x t hx ht
      have hchain := List.chain'_iff_get.mp hch j (by omega)
      have hty : t ≤ y :=
        lbLE_totals_le hchain (by omega) ht hy
      omega

/-! ### Error paths of the ping handler, in closed form -/

theorem recordPing_dnf_eq (st : EventState) (athleteId sid : String)
    (now : Millis) (a : Athlete)
    (hact : st.status = "active")
    (hk : ∃ j, stationIndexOf st.stationList sid = some j)
    (ha : st.athletes.lookup athleteId = some a)
    (hdnf : effStatus a = "dnf") :
    recordPing st athleteId sid now = (st, .error .athleteDNF) := by
  obtain ⟨j, hk⟩ := hk
  rw [recordPing, if_neg (by simp [hact]), hk, ha]
  dsimp only
  rw [if_pos hdnf]

theorem recordPing_out_of_order_eq (st : EventState) (athleteId sid : String)
    (now : Millis) (a : Athlete) (s : Station)
    (hact : st.status = "active")
    (hk : ∃ j, stationIndexOf st.stationList sid = some j)
    (ha : st.athletes.lookup athleteId = some a)
    (hdnf : effStatus a ≠ "dnf")
    (hexp : expectedStation st.stationList (effProgress a) = s)
    (hne : sid ≠ s.id) :
    recordPing st athleteId sid now =
      (st, .error (.outOfOrder s.id sid)) := by
  obtain ⟨j, hk⟩ := hk
  rw [recordPing, if_neg (by simp [hact]), hk, ha]
  dsimp only
  rw [if_neg hdnf, hexp, if_pos hne]

theorem recordPing_duplicate_eq (st : EventState) (athleteId sid : String)
    (now : Millis) (a : Athlete)
    (hact : st.status = "active")
    (hk : ∃ j, stationIndexOf st.stationList sid = some j)
    (ha : st.athletes.lookup athleteId = some a)
    (hdnf : effStatus a ≠ "dnf")
    (hexp : sid = (expectedStation st.stationList (effProgress a)).id)
    (hdup : (a.stationTimes.lookup sid).isSome = true) :
    recordPing st athleteId sid now =
      (st, .error (.duplicateCompletion sid)) := by
  obtain ⟨j, hk⟩ := hk
  rw [recordPing, if_neg (by simp [hact]), hk, ha]
  dsimp only
  rw [if_neg hdnf, if_neg (by simp [← hexp]), if_pos hdup]

/-! ### Example states used by witnesses and counterexamples -/

/-- A three-station catalog. -/
def exStations : List Station := [⟨"s0"⟩, ⟨"s1"⟩, ⟨"s2"⟩]

/-- An active event with one fresh athlete. -/
def exFreshSt : EventState :=
  { status := "active", stationList := exStations,
    athletes := [("a", freshAthlete)], pings := [], splits := [] }

/-! ### Claim C6 -/

/-- C6: while the station at index `progress` is the expected one, a ping of
any known station with a different id — ahead of or behind the expected one —
is rejected with `OutOfOrderStation` carrying both the expected and the
attempted id, and the whole event state (athlete documents, Ping facts,
Split facts) is returned unchanged. -/
theorem ping_wrong_station_rejected_out_of_order
    (st : EventState) (athleteId sid : String) (now : Millis) (a : Athlete)
    (s : Station) (j : Nat)
    (hact : st.status = "active")
    (hk : stationIndexOf st.stationList sid = some j)
    (ha : st.athletes.lookup athleteId = some a)
    (hdnf : effStatus a ≠ "dnf")
    (hs : st.stationList[effProgress a]? = some s)
    (hne : sid ≠ s.id) :
    recordPing st athleteId sid now = (st, .error (.outOfOrder s.id sid)) :=
  recordPing_out_of_order_eq st athleteId sid now a s hact ⟨j, hk⟩ ha hdnf
    (by rw [expectedStation, hs]) hne

/-- Witness for C6, the scenario of the specification: ping `s2` while
`progress = 0` is rejected with expected `s0`, attempted `s2`, no state
change. -/
theorem ping_wrong_station_rejected_out_of_order_witness :
    exFreshSt.status = "active" ∧
    stationIndexOf exFreshSt.stationList "s2" = some 2 ∧
    exFreshSt.athletes.lookup "a" = some freshAthlete ∧
    effStatus freshAthlete ≠ "dnf" ∧
    exFreshSt.stationList[effProgress freshAthlete]? =
      some (⟨"s0"⟩ : Station) ∧
    "s2" ≠ (⟨"s0"⟩ : Station).id ∧
    recordPing exFreshSt "a" "s2" 50 =
      (exFreshSt, .error (.outOfOrder "s0" "s2")) :=
  ⟨by decide, by decide, by decide, by decide, by decide, by decide,
   ping_wrong_station_rejected_out_of_order exFreshSt "a" "s2" 50
     freshAthlete ⟨"s0"⟩ 2 (by decide) (by decide) (by decide) (by decide)
     (by decide) (by decide)⟩

/-! ### Claim C7 -/

/-- C7: reset deletes every Ping and Split fact of the athlete (and only
those), writes progress 0, an empty `stationTimes`, status `ready` and a
cleared `finishedAt`, and touches nothing else. -/
theorem reset_clears_athlete_and_facts (st : EventState)
    (athleteId : String) :
    (reset st athleteId).status = st.status ∧
    (reset st athleteId).stationList = st.stationList ∧
    (reset st athleteId).pings =
      st.pings.filter (fun q => !(q.athleteId == athleteId)) ∧
    (∀ q ∈ (reset st athleteId).pings, q.athleteId ≠ athleteId) ∧
    (reset st athleteId).splits =
      st.splits.filter (fun q => !(q.athleteId == athleteId)) ∧
    (∀ q ∈ (reset st athleteId).splits, q.athleteId ≠ athleteId) ∧
    (reset st athleteId).athletes.lookup athleteId =
      some { progress := 0, stationTimes := [], status := "ready",
             finishedAt := none } ∧
    (∀ k, k ≠ athleteId →
      (reset st athleteId).athletes.lookup k = st.athletes.lookup k) := by
  refine ⟨rfl, rfl, rfl, ?_, rfl, ?_, ?_, ?_⟩
  · intro q hq
    simp only [reset, List.mem_filter] at hq
    simpa using hq.2
  · intro q hq
    simp only [reset, List.mem_filter] at hq
    simpa using hq.2
  · simp only [reset]
    rw [lookup_objSet, if_pos rfl]
    rfl
  · intro k hk
    simp only [reset]
    rw [lookup_objSet, if_neg hk]

/-- Witness for C7 at a concrete state holding facts of two athletes. -/
theorem reset_clears_athlete_and_facts_witness :
    (reset
      { status := "active", stationList := exStations,
        athletes := [("a", ⟨2, [("s0", 10), ("s1", 20)], "active", none⟩),
                     ("b", ⟨1, [("s0", 15)], "active", none⟩)],
        pings := [⟨"a", "s0", 0, 10⟩, ⟨"b", "s0", 0, 15⟩,
                  ⟨"a", "s1", 1, 20⟩],
        splits := [⟨"a", "s1", 1, 10, 20, 10⟩] } "a").athletes.lookup "a" =
      some { progress := 0, stationTimes := [], status := "ready",
             finishedAt := none } :=
  (reset_clears_athlete_and_facts _ "a").2.2.2.2.2.2.1

/-! ### Claim C8 -/

/-- C8: disqualify rewrites only the status field to `dnf` — progress,
`stationTimes`, `finishedAt`, the Ping facts and the Split facts are
unchanged — and every subsequent ping of the athlete on the (active) event
is rejected with `AthleteDisqualified`, again without touching the state. -/
theorem disqualify_status_only_and_blocks_pings
    (st : EventState) (athleteId : String) (a : Athlete)
    (ha : st.athletes.lookup athleteId = some a) :
    (disqualify st athleteId).athletes.lookup athleteId =
      some ({ a with status := "dnf" }) ∧
    (disqualify st athleteId).pings = st.pings ∧
    (disqualify st athleteId).splits = st.splits ∧
    (disqualify st athleteId).stationList = st.stationList ∧
    (disqualify st athleteId).status = st.status ∧
    (∀ k, k ≠ athleteId →
      (disqualify st athleteId).athletes.lookup k = st.athletes.lookup k) ∧
    (st.status = "active" →
      ∀ sid now j, stationIndexOf st.stationList sid = some j →
        recordPing (disqualify st athleteId) athleteId sid now =
          (disqualify st athleteId, .error .athleteDNF)) := by
  have hd : disqualify st athleteId =
      { st with athletes :=
          objSet st.athletes athleteId ({ a with status := "dnf" }) } := by
    rw [disqualify, ha]
  refine ⟨?_, ?_, ?_, ?_, ?_, ?_, ?_⟩
  · rw [hd]
    dsimp only
    rw [lookup_objSet, if_pos rfl]
  · rw [hd]
  · rw [hd]
  · rw [hd]
  · rw [hd]
  · intro k hk
    rw [hd]
    dsimp only
    rw [lookup_objSet, if_neg hk]
  · intro hact sid now j hj
    refine recordPing_dnf_eq _ _ _ _ ({ a with status := "dnf" }) ?_
      ⟨j, ?_⟩ ?_ ?_
    · rw [hd]
      exact hact
    · rw [hd]
      exact hj
    · rw [hd]
      dsimp only
      rw [lookup_objSet, if_pos rfl]
    · simp [effStatus]

/-- Witness for C8: disqualify a mid-course athlete, then ping; progress
and times survive, the ping is rejected. -/
theorem disqualify_status_only_and_blocks_pings_witness :
    ({ status := "active", stationList := exStations,
       athletes := [("a", ⟨1, [("s0", 10)], "active", none⟩)],
       pings := [⟨"a", "s0", 0, 10⟩], splits := [] } :
        EventState).athletes.lookup "a" =
      some ⟨1, [("s0", 10)], "active", none⟩ ∧
    (disqualify
      { status := "active", stationList := exStations,
        athletes := [("a", ⟨1, [("s0", 10)], "active", none⟩)],
        pings := [⟨"a", "s0", 0, 10⟩], splits := [] } "a").athletes.lookup
        "a" = some ⟨1, [("s0", 10)], "dnf", none⟩ := by
  refine ⟨by decide, ?_⟩
  exact (disqualify_status_only_and_blocks_pings _ "a"
    ⟨1, [("s0", 10)], "active", none⟩ (by decide)).1

/-! ### Claim C10 -/

/-- C10: undo has no status precondition and only rewrites the status when
it was `finished`: the successful undo of an athlete (including a `dnf`
athlete with progress at least one) decrements progress and deletes the
matching ping and split facts, while a non-`finished` status — in
particular `dnf`, or the `active` reached after the first completed
station — is left exactly as it was, along with `finishedAt`. -/
theorem undo_changes_status_only_from_finished
    (st : EventState) (athleteId : String) (a : Athlete)
    (lastStation : Station)
    (ha : st.athletes.lookup athleteId = some a)
    (hpos : 0 < a.progress)
    (hlast : st.stationList[a.progress.toNat - 1]? = some lastStation) :
    (Tymx.undo st athleteId).2 =
      .ok ⟨lastStation.id, a.progress.toNat - 1⟩ ∧
    (Tymx.undo st athleteId).1.athletes.lookup athleteId =
      some (undoAthlete a lastStation) ∧
    (undoAthlete a lastStation).status =
      (if a.status = "finished" then "active" else a.status) ∧
    (a.status ≠ "finished" →
      (undoAthlete a lastStation).status = a.status ∧
      (undoAthlete a lastStation).finishedAt = a.finishedAt) ∧
    (a.status = "dnf" → (undoAthlete a lastStation).status = "dnf") ∧
    (undoAthlete a lastStation).progress = ((a.progress.toNat - 1 : Nat) : Int) ∧
    (Tymx.undo st athleteId).1.pings = st.pings.filter
      (fun q => !(q.athleteId == athleteId && q.stationId == lastStation.id)) ∧
    (Tymx.undo st athleteId).1.splits = st.splits.filter
      (fun q => !(q.athleteId == athleteId && q.stationId == lastStation.id)) := by
  rw [undo_success_eq st athleteId a lastStation ha hpos hlast]
  refine ⟨rfl, ?_, rfl, ?_, ?_, rfl, rfl, rfl⟩
  · dsimp only
    rw [lookup_objSet, if_pos rfl]
  · intro h
    rw [undoAthlete]
    dsimp only
    rw [if_neg h, if_neg h]
    exact ⟨rfl, rfl⟩
  · intro h
    rw [undoAthlete]
    dsimp only
    rw [if_neg (by rw [h]; decide)]
    exact h

/-- Witness for C10: a successful undo on a `dnf` athlete with progress 2
leaves the status `dnf`. -/
theorem undo_changes_status_only_from_finished_witness :
    (({ status := "active", stationList := exStations,
        athletes := [("d", ⟨2, [("s0", 10), ("s1", 20)], "dnf", none⟩)],
        pings := [⟨"d", "s0", 0, 10⟩, ⟨"d", "s1", 1, 20⟩],
        splits := [⟨"d", "s1", 1, 10, 20, 10⟩] } : EventState).athletes.lookup
        "d" = some ⟨2, [("s0", 10), ("s1", 20)], "dnf", none⟩) ∧
    (0 : Int) < 2 ∧
    (Tymx.undo
      { status := "active", stationList := exStations,
        athletes := [("d", ⟨2, [("s0", 10), ("s1", 20)], "dnf", none⟩)],
        pings := [⟨"d", "s0", 0, 10⟩, ⟨"d", "s1", 1, 20⟩],
        splits := [⟨"d", "s1", 1, 10, 20, 10⟩] } "d").2 =
      .ok ⟨"s1", 1⟩ := by
  refine ⟨by decide, by decide, ?_⟩
  exact (undo_changes_status_only_from_finished _ "d"
    ⟨2, [("s0", 10), ("s1", 20)], "dnf", none⟩ ⟨"s1"⟩ (by decide) (by decide)
    (by decide)).1

/-! ### Claim C1 -/

/-- C1: a successful ping of the expected station (the one at index
`progress`) by a non-dnf athlete of an active event appends one Ping fact;
emits a Split fact with duration `now - previousTimestamp` exactly when
`progress > 0` and the preceding station's completion time is recorded
(otherwise no split); records `stationTimes[stationId] = now` leaving every
other entry unchanged; increments progress by exactly one; moves the status
to `finished` with `finishedAt = now` exactly when the new progress reaches
the station count, else from `ready` to `active`, else leaves it; and the
response carries the new progress, the nullable split duration and the
finished flag. -/
theorem ping_expected_station_effects
    (st : EventState) (athleteId sid : String) (now : Millis) (a : Athlete)
    (s : Station)
    (hact : st.status = "active")
    (hids : (st.stationList.map Station.id).Nodup)
    (ha : st.athletes.lookup athleteId = some a)
    (hdnf : effStatus a ≠ "dnf")
    (hs : st.stationList[effProgress a]? = some s)
    (hsid : sid = s.id)
    (hfresh : a.stationTimes.lookup sid = none) :
    ∃ st' r, recordPing st athleteId sid now = (st', Except.ok r) ∧
      st'.pings = st.pings ++ [⟨athleteId, sid, effProgress a, now⟩] ∧
      ((0 < effProgress a ∧ ∃ t, prevTimeOf st a = some t ∧
          st'.splits = st.splits ++
            [⟨athleteId, sid, effProgress a, t, now, (now : Int) - t⟩] ∧
          r.splitMs = some ((now : Int) - t)) ∨
        (prevTimeOf st a = none ∧ st'.splits = st.splits ∧
          r.splitMs = none)) ∧
      (∃ a', st'.athletes.lookup athleteId = some a' ∧
        a'.stationTimes.lookup sid = some now ∧
        (∀ k, k ≠ sid → a'.stationTimes.lookup k = a.stationTimes.lookup k) ∧
        a'.progress = (effProgress a : Int) + 1 ∧
        (if effProgress a + 1 = st.stationList.length
          then a'.status = "finished" ∧ a'.finishedAt = some now
          else (effStatus a = "ready" → a'.status = "active") ∧
            (effStatus a ≠ "ready" → a'.status = a.status) ∧
            a'.finishedAt = a.finishedAt)) ∧
      r.progress = effProgress a + 1 ∧
      (r.finished = true ↔ effProgress a + 1 = st.stationList.length) := by
  have hplen : effProgress a < st.stationList.length :=
    stationIndexOf_lt_length
      (show stationIndexOf st.stationList sid = some (effProgress a) by
        rw [hsid]
        exact stationIndexOf_of_nodup hids hs)
  rw [recordPing_success_eq st athleteId sid now a s hact hids ha hdnf hs
    hsid hfresh]
  refine ⟨_, _, rfl, rfl, ?_, ?_, rfl, by simp; omega⟩
  · cases hpt : prevTimeOf st a with
    | some t =>
      have hp0 : 0 < effProgress a := by
        by_contra h
        rw [prevTimeOf, if_pos (by omega)] at hpt
        exact Option.noConfusion hpt
      exact Or.inl ⟨hp0, t, rfl, by dsimp only, by simp⟩
    | none =>
      exact Or.inr ⟨rfl, by dsimp only; rw [List.append_nil], by simp⟩
  · refine ⟨pingAthlete st a sid now, ?_, ?_, ?_, ?_, ?_⟩
    · dsimp only
      rw [lookup_objSet, if_pos rfl]
    · rw [pingAthlete]
      dsimp only
      rw [lookup_objSet, if_pos rfl]
    · intro k hk
      rw [pingAthlete]
      dsimp only
      rw [lookup_objSet, if_neg hk]
    · rw [pingAthlete]
      dsimp only
      omega
    · by_cases hf : effProgress a + 1 = st.stationList.length
      · have hc : decide (st.stationList.length ≤ effProgress a + 1) =
            true := by
          simp
          omega
        rw [if_pos hf]
        constructor
        · rw [pingAthlete]
          dsimp only
          rw [if_pos hc]
        · rw [pingAthlete]
          dsimp only
          rw [if_pos hc]
      · have hc : ¬ decide (st.stationList.length ≤ effProgress a + 1) =
            true := by
          simp
          omega
        rw [if_neg hf]
        refine ⟨?_, ?_, ?_⟩
        · intro h
          rw [pingAthlete]
          dsimp only
          rw [if_neg hc, if_pos h]
        · intro h
          rw [pingAthlete]
          dsimp only
          rw [if_neg hc, if_neg h]
        · rw [pingAthlete]
          dsimp only
          rw [if_neg hc]

/-- The C1 witness state: a three-station active event, one athlete who
completed the first station at t = 100. -/
def exC1St : EventState :=
  { status := "active", stationList := exStations,
    athletes := [("a", ⟨1, [("s0", 100)], "active", none⟩)],
    pings := [⟨"a", "s0", 0, 100⟩], splits := [] }

/-- Witness for C1: the second station of a three-station event, pinged at
t = 350 after the first was completed at t = 100, yields progress 2 and a
250 ms split. -/
theorem ping_expected_station_effects_witness :
    (exC1St.athletes.lookup "a" =
      some ⟨1, [("s0", 100)], "active", none⟩) ∧
    (∃ st' r,
      recordPing exC1St "a" "s1" 350 = (st', Except.ok r) ∧
      st'.pings = [⟨"a", "s0", 0, 100⟩] ++ [⟨"a", "s1", 1, 350⟩] ∧
      r.progress = 2 ∧ r.splitMs = some 250 ∧ r.finished = false) := by
  refine ⟨by decide, ?_⟩
  obtain ⟨st', r, heq, hpings, hsplit, -, hprog, hfin⟩ :=
    ping_expected_station_effects exC1St "a" "s1" 350
      ⟨1, [("s0", 100)], "active", none⟩ ⟨"s1"⟩ (by decide) (by decide)
      (by decide) (by decide) (by decide) (by decide) (by decide)
  refine ⟨st', r, heq, hpings, hprog, ?_, ?_⟩
  · rcases hsplit with ⟨-, t, ht, -, hms⟩ | ⟨hnone, -, -⟩
    · have ht100 : t = 100 := by
        have hpv : prevTimeOf exC1St ⟨1, [("s0", 100)], "active", none⟩ =
            some 100 := by decide
        rw [hpv] at ht
        exact (Option.some_inj.mp ht).symm
      rw [hms, ht100]
      rfl
    · exfalso
      revert hnone
      decide
  · rcases Bool.eq_false_or_eq_true r.finished with h | h
    · exact absurd (hfin.mp h) (by decide)
    · exact h

/-! ### Claim C2 -/

/-- C2 fails on the program: from the fresh state, ping `s0`, ping `s1`,
then undo.  The undo handler deletes `s1` only from an in-memory copy of
`stationTimes` and commits the copy with `set(..., merge true)`; the copy
still holds `s0`, so the store deep-merges it and the stored map keeps the
entry for `s1` — a station at index 1 while progress is 1, violating the
claimed contiguous-prefix invariant (and the handler's own "no ghost
stationTimes" banner).  The contiguous-prefix invariant is therefore not
maintained by the reachable states. -/
theorem undo_leaves_ghost_station_time :
    (execOps exFreshSt
        [.ping "a" "s0" 10, .ping "a" "s1" 25, .undo "a"]).athletes.lookup
      "a" = some ⟨1, [("s0", 10), ("s1", 25)], "active", none⟩ ∧
    (execOps exFreshSt
        [.ping "a" "s0" 10, .ping "a" "s1" 25, .undo "a"]).stationList =
      exStations ∧
    exStations[1]? = some ⟨"s1"⟩ ∧
    (exFreshSt.athletes.lookup "a").map
        (fun x => (x.progress, x.stationTimes)) = some (0, []) ∧
    ¬ prefixInv exStations ⟨1, [("s0", 10), ("s1", 25)], "active", none⟩ := by
  refine ⟨by decide, by decide, by decide, by decide, ?_⟩
  intro hinv
  obtain ⟨-, -, hiff⟩ := hinv
  exact absurd ((hiff 1 ⟨"s1"⟩ (by decide)).mp (by decide)) (by decide)

/-! ### Claim C4 -/

/-- The C4 state: a two-station event whose athlete already finished
(progress 2 = station count). -/
def exC4St : EventState :=
  { status := "active", stationList := [⟨"s0"⟩, ⟨"s1"⟩],
    athletes :=
      [("a", ⟨2, [("s0", 100), ("s1", 200)], "finished", some 200⟩)],
    pings := [⟨"a", "s0", 0, 100⟩, ⟨"a", "s1", 1, 200⟩],
    splits := [⟨"a", "s1", 1, 100, 200, 100⟩] }

/-- Counterexample to C4: for the finished athlete (progress 2 of 2) no
ping is rejected as `AlreadyFinished` — the handler falls back to the last
station as the expected one, so pinging the last station yields
`DuplicateCompletion` and pinging any other yields `OutOfOrderStation`. -/
theorem finished_ping_not_already_finished :
    (exC4St.stationList.length : Int) ≤ 2 ∧
    (exC4St.athletes.lookup "a").map Athlete.progress = some 2 ∧
    (recordPing exC4St "a" "s1" 500).2 =
      Except.error (ApiError.duplicateCompletion "s1") ∧
    (recordPing exC4St "a" "s0" 500).2 =
      Except.error (ApiError.outOfOrder "s1" "s0") ∧
    (recordPing exC4St "a" "s1" 500).2 ≠
      Except.error ApiError.alreadyFinished ∧
    (recordPing exC4St "a" "s0" 500).2 ≠
      Except.error ApiError.alreadyFinished := by
  decide

/-- C4 amended: an athlete whose progress has reached the station count (in
an invariant-satisfying state) has every ping rejected and the state
returned unchanged, but never as `AlreadyFinished`: the handler treats the
last station as the expected one, so the last station's id is rejected as
`DuplicateCompletion` and every other known station as `OutOfOrderStation`
naming the last station as expected. -/
theorem finished_ping_rejection_dichotomy
    (st : EventState) (athleteId sid : String) (now : Millis) (a : Athlete)
    (j : Nat)
    (hact : st.status = "active")
    (hk : stationIndexOf st.stationList sid = some j)
    (ha : st.athletes.lookup athleteId = some a)
    (hdnf : effStatus a ≠ "dnf")
    (hinv : prefixInv st.stationList a)
    (hge : (st.stationList.length : Int) ≤ a.progress) :
    ∃ s, st.stationList[st.stationList.length - 1]? = some s ∧
      recordPing st athleteId sid now =
        (st, .error (if sid = s.id then ApiError.duplicateCompletion sid
          else ApiError.outOfOrder s.id sid)) := by
  obtain ⟨hnn, hle, hiff⟩ := hinv
  have hlen : 0 < st.stationList.length :=
    lt_of_le_of_lt (Nat.zero_le _) (stationIndexOf_lt_length hk)
  have hpe : effProgress a = st.stationList.length := by
    unfold effProgress
    omega
  obtain ⟨sl, hlast⟩ : ∃ sl,
      st.stationList[st.stationList.length - 1]? = some sl :=
    ⟨_, List.getElem?_eq_getElem (by omega)⟩
  have hnone : st.stationList[effProgress a]? = none :=
    List.getElem?_eq_none (by omega)
  have hexp : expectedStation st.stationList (effProgress a) = sl := by
    rw [expectedStation, hnone, hlast]
    rfl
  refine ⟨sl, hlast, ?_⟩
  by_cases hsid : sid = sl.id
  · have hdup : (a.stationTimes.lookup sid).isSome = true := by
      rw [hsid]
      exact (hiff (st.stationList.length - 1) _ hlast).mpr (by omega)
    rw [if_pos hsid]
    exact recordPing_duplicate_eq st athleteId sid now a hact ⟨j, hk⟩ ha hdnf
      (by rw [hexp, hsid]) hdup
  · rw [if_neg hsid]
    exact recordPing_out_of_order_eq st athleteId sid now a _ hact ⟨j, hk⟩
      ha hdnf hexp hsid

/-- Witness for C4's amended dichotomy at the concrete finished athlete. -/
theorem finished_ping_rejection_dichotomy_witness :
    exC4St.status = "active" ∧
    stationIndexOf exC4St.stationList "s0" = some 0 ∧
    (exC4St.athletes.lookup "a" =
      some ⟨2, [("s0", 100), ("s1", 200)], "finished", some 200⟩) ∧
    effStatus ⟨2, [("s0", 100), ("s1", 200)], "finished", some 200⟩ ≠
      "dnf" ∧
    prefixInv exC4St.stationList
      ⟨2, [("s0", 100), ("s1", 200)], "finished", some 200⟩ ∧
    (exC4St.stationList.length : Int) ≤ 2 ∧
    (∃ s, exC4St.stationList[exC4St.stationList.length - 1]? = some s ∧
      recordPing exC4St "a" "s0" 500 =
        (exC4St, .error (if "s0" = s.id
          then ApiError.duplicateCompletion "s0"
          else ApiError.outOfOrder s.id "s0"))) := by
  have hinv : prefixInv exC4St.stationList
      ⟨2, [("s0", 100), ("s1", 200)], "finished", some 200⟩ := by
    refine ⟨by decide, by decide, ?_⟩
    intro i s hs
    match i, hs with
    | 0, hs =>
      cases hs
      decide
    | 1, hs =>
      cases hs
      decide
  refine ⟨by decide, by decide, by decide, by decide, hinv, by decide, ?_⟩
  exact finished_ping_rejection_dichotomy exC4St "a" "s0" 500
    ⟨2, [("s0", 100), ("s1", 200)], "finished", some 200⟩ 0 (by decide)
    (by decide) (by decide) (by decide) hinv (by decide)

/-! ### Claim C5 -/

/-- A two-station active event with one fresh athlete. -/
def exC5St : EventState :=
  { status := "active", stationList := [⟨"s0"⟩, ⟨"s1"⟩],
    athletes := [("a", freshAthlete)], pings := [], splits := [] }

/-- Counterexample to C5: after a successful ping of `s0` (progress 0 → 1),
the immediately repeated ping of `s0` is rejected — but with
`OutOfOrderStation` (the expected station is now `s1`), not with
`DuplicateCompletion`: the order check runs before the duplicate check. -/
theorem repeat_ping_rejected_as_out_of_order :
    (recordPing exC5St "a" "s0" 100).2.isOk = true ∧
    (recordPing (recordPing exC5St "a" "s0" 100).1 "a" "s0" 200).2 =
      Except.error (ApiError.outOfOrder "s1" "s0") ∧
    (recordPing (recordPing exC5St "a" "s0" 100).1 "a" "s0" 200).2 ≠
      Except.error (ApiError.duplicateCompletion "s0") := by
  decide

/-- C5 amended: a ping of the station at index `progress` succeeds exactly
once: an immediately repeated ping of the same station is always rejected
with the state unchanged — with `OutOfOrderStation` (the expected station
now being the next one) while a next station exists, and with
`DuplicateCompletion` when the repeated station was the final one. -/
theorem ping_succeeds_once_repeat_rejected
    (st : EventState) (athleteId sid : String) (now : Millis) (a : Athlete)
    (s : Station)
    (hact : st.status = "active")
    (hids : (st.stationList.map Station.id).Nodup)
    (ha : st.athletes.lookup athleteId = some a)
    (hdnf : effStatus a ≠ "dnf")
    (hs : st.stationList[effProgress a]? = some s)
    (hsid : sid = s.id)
    (hfresh : a.stationTimes.lookup sid = none) :
    (∃ r, (recordPing st athleteId sid now).2 = Except.ok r) ∧
    (∀ now2 s', st.stationList[effProgress a + 1]? = some s' →
      recordPing (recordPing st athleteId sid now).1 athleteId sid now2 =
        ((recordPing st athleteId sid now).1,
          Except.error (ApiError.outOfOrder s'.id sid))) ∧
    (st.stationList.length = effProgress a + 1 →
      ∀ now2,
        recordPing (recordPing st athleteId sid now).1 athleteId sid now2 =
          ((recordPing st athleteId sid now).1,
            Except.error (ApiError.duplicateCompletion sid))) := by
  have hkp : stationIndexOf st.stationList sid = some (effProgress a) := by
    rw [hsid]
    exact stationIndexOf_of_nodup hids hs
  have hplen : effProgress a < st.stationList.length :=
    stationIndexOf_lt_length hkp
  have hbig := recordPing_success_eq st athleteId sid now a s hact hids ha
    hdnf hs hsid hfresh
  have hsl1 : (recordPing st athleteId sid now).1.stationList =
      st.stationList := (recordPing_frame st athleteId sid now).1.1
  have hss1 : (recordPing st athleteId sid now).1.status = st.status :=
    (recordPing_frame st athleteId sid now).1.2
  have ha1 : (recordPing st athleteId sid now).1.athletes.lookup athleteId =
      some (pingAthlete st a sid now) := by
    rw [hbig]
    dsimp only
    rw [lookup_objSet, if_pos rfl]
  have heff1 : effProgress (pingAthlete st a sid now) =
      effProgress a + 1 := by
    rw [pingAthlete]
    unfold effProgress
    dsimp only
    omega
  have hdnf1 : effStatus (pingAthlete st a sid now) ≠ "dnf" := by
    rw [pingAthlete, effStatus]
    dsimp only
    by_cases h1 : decide (st.stationList.length ≤ effProgress a + 1) = true
    · rw [if_pos h1]
      decide
    · rw [if_neg h1]
      by_cases h2 : effStatus a = "ready"
      · rw [if_pos h2]
        decide
      · rw [if_neg h2]
        intro hcon
        apply hdnf
        rw [effStatus]
        exact hcon
  refine ⟨?_, ?_, ?_⟩
  · rw [hbig]
    exact ⟨_, rfl⟩
  · intro now2 s' hs'
    refine recordPing_out_of_order_eq _ athleteId sid now2
      (pingAthlete st a sid now) s' (by rw [hss1, hact])
      ⟨effProgress a, by rw [hsl1]; exact hkp⟩ ha1 hdnf1 ?_ ?_
    · rw [hsl1, heff1, expectedStation, hs']
    · rw [hsid]
      intro hcon
      have h1 := (nodup_id_eq_iff hids hs hs').mp hcon
      omega
  · intro hN now2
    refine recordPing_duplicate_eq _ athleteId sid now2
      (pingAthlete st a sid now) (by rw [hss1, hact])
      ⟨effProgress a, by rw [hsl1]; exact hkp⟩ ha1 hdnf1 ?_ ?_
    · have hnone : st.stationList[effProgress a + 1]? = none :=
        List.getElem?_eq_none (by omega)
      have hl1 : st.stationList.length - 1 = effProgress a := by omega
      rw [hsl1, heff1, expectedStation, hnone, hl1, hs]
      exact hsid
    · rw [pingAthlete]
      dsimp only
      rw [lookup_objSet, if_pos rfl]
      rfl

/-- Witness for C5's amended statement: ping `s1` from progress 1 of a
two-station event, then repeat it; the repeat is `DuplicateCompletion`
because `s1` is the final station. -/
theorem ping_succeeds_once_repeat_rejected_witness :
    (({ status := "active", stationList := [⟨"s0"⟩, ⟨"s1"⟩],
        athletes := [("a", ⟨1, [("s0", 10)], "active", none⟩)],
        pings := [⟨"a", "s0", 0, 10⟩], splits := [] } :
          EventState).athletes.lookup "a" =
      some ⟨1, [("s0", 10)], "active", none⟩) ∧
    (∃ r, (recordPing
      { status := "active", stationList := [⟨"s0"⟩, ⟨"s1"⟩],
        athletes := [("a", ⟨1, [("s0", 10)], "active", none⟩)],
        pings := [⟨"a", "s0", 0, 10⟩], splits := [] } "a" "s1" 30).2 =
        Except.ok r) ∧
    (recordPing (recordPing
      { status := "active", stationList := [⟨"s0"⟩, ⟨"s1"⟩],
        athletes := [("a", ⟨1, [("s0", 10)], "active", none⟩)],
        pings := [⟨"a", "s0", 0, 10⟩], splits := [] } "a" "s1" 30).1
        "a" "s1" 45) =
      ((recordPing
        { status := "active", stationList := [⟨"s0"⟩, ⟨"s1"⟩],
          athletes := [("a", ⟨1, [("s0", 10)], "active", none⟩)],
          pings := [⟨"a", "s0", 0, 10⟩], splits := [] } "a" "s1" 30).1,
        Except.error (ApiError.duplicateCompletion "s1")) := by
  obtain ⟨h1, -, h3⟩ := ping_succeeds_once_repeat_rejected
    { status := "active", stationList := [⟨"s0"⟩, ⟨"s1"⟩],
      athletes := [("a", ⟨1, [("s0", 10)], "active", none⟩)],
      pings := [⟨"a", "s0", 0, 10⟩], splits := [] } "a" "s1" 30
    ⟨1, [("s0", 10)], "active", none⟩ ⟨"s1"⟩ (by decide) (by decide)
    (by decide) (by decide) (by decide) (by decide) (by decide)
  exact ⟨by decide, h1, h3 (by decide) 45⟩

/-! ### Claim C3 -/

/-- Counterexample to C3, in two parts.  Status: undoing the very first
completed station does not restore the exact prior athlete state — the
athlete was `ready` before the ping but is `active` after ping-then-undo,
the undo handler only ever rewriting a `finished` status.  `stationTimes`:
from `exC1St` (one completed station `s0`), pinging `s1` and undoing leaves
a residual `stationTimes` entry for the undone station `s1` — the merge
write of the non-empty copied map keeps the stored entry — so the prior map
`[("s0", 100)]` is not restored either. -/
theorem undo_does_not_restore_ready_status :
    (recordPing exFreshSt "a" "s0" 100).2.isOk = true ∧
    ((Tymx.undo (recordPing exFreshSt "a" "s0" 100).1 "a").1.athletes.lookup
      "a").map Athlete.status = some "active" ∧
    (exFreshSt.athletes.lookup "a").map Athlete.status = some "ready" ∧
    (recordPing exC1St "a" "s1" 350).2.isOk = true ∧
    ((Tymx.undo (recordPing exC1St "a" "s1" 350).1 "a").1.athletes.lookup
      "a").map Athlete.stationTimes = some [("s0", 100), ("s1", 350)] ∧
    (exC1St.athletes.lookup "a").map Athlete.stationTimes =
      some [("s0", 100)] := by
  decide

/-- C3 amended: undo fails with `NothingToUndo` exactly when the stored
progress is at most 0; applied immediately after a successful RecordPing by
a `ready` or `active` athlete (non-negative progress, unset `finishedAt`,
no pre-existing Ping or Split facts for the pinged station), it deletes
exactly the Ping and Split facts that ping created and restores progress
and `finishedAt` exactly; the status after the undo is `active` — equal to
the prior status except when the prior status was `ready`, which is not
restored; and `stationTimes` is restored exactly only when the athlete had
no other recorded completion time: an emptied copy clears the map, but when
any prior entry remains the merge write leaves the stored map untouched,
so the undone station's timestamp survives as a residual entry. -/
theorem undo_inverts_ping_except_ready_status
    (st : EventState) (athleteId sid : String) (now : Millis) (a : Athlete)
    (s : Station)
    (hact : st.status = "active")
    (hids : (st.stationList.map Station.id).Nodup)
    (ha : st.athletes.lookup athleteId = some a)
    (hnn : 0 ≤ a.progress)
    (hstat : effStatus a = "ready" ∨ a.status = "active")
    (hfin : a.finishedAt = none)
    (hs : st.stationList[effProgress a]? = some s)
    (hsid : sid = s.id)
    (hfresh : a.stationTimes.lookup sid = none)
    (hnop : ∀ q ∈ st.pings,
      ¬(q.athleteId = athleteId ∧ q.stationId = sid))
    (hnos : ∀ q ∈ st.splits,
      ¬(q.athleteId = athleteId ∧ q.stationId = sid)) :
    (∀ st2 aid2 a2, st2.athletes.lookup aid2 = some a2 →
      ((Tymx.undo st2 aid2).2 = Except.error ApiError.nothingToUndo ↔
        a2.progress ≤ 0)) ∧
    (Tymx.undo (recordPing st athleteId sid now).1 athleteId).2 =
      Except.ok ⟨sid, effProgress a⟩ ∧
    (Tymx.undo (recordPing st athleteId sid now).1 athleteId).1.pings =
      st.pings ∧
    (Tymx.undo (recordPing st athleteId sid now).1 athleteId).1.splits =
      st.splits ∧
    (Tymx.undo (recordPing st athleteId sid now).1
        athleteId).1.athletes.lookup athleteId =
      some ({ a with
              status := "active"
              stationTimes := if a.stationTimes.isEmpty then []
                else a.stationTimes ++ [(sid, now)] }) ∧
    (∀ k, k ≠ athleteId →
      (Tymx.undo (recordPing st athleteId sid now).1
        athleteId).1.athletes.lookup k = st.athletes.lookup k) := by
  have hdnf : effStatus a ≠ "dnf" := by
    rcases hstat with h | h
    · rw [h]
      decide
    · rw [effStatus, if_neg (by rw [h]; decide), h]
      decide
  have hbig := recordPing_success_eq st athleteId sid now a s hact hids ha
    hdnf hs hsid hfresh
  have ha1p : (pingAthlete st a sid now).progress =
      ((effProgress a + 1 : Nat) : Int) := by
    rw [pingAthlete]
  have ha1 : (recordPing st athleteId sid now).1.athletes.lookup athleteId =
      some (pingAthlete st a sid now) := by
    rw [hbig]
    dsimp only
    rw [lookup_objSet, if_pos rfl]
  have hlast1 : (recordPing st athleteId sid now).1.stationList[
      (pingAthlete st a sid now).progress.toNat - 1]? = some s := by
    rw [(recordPing_frame st athleteId sid now).1.1, ha1p]
    have : ((effProgress a + 1 : Nat) : Int).toNat - 1 = effProgress a := by
      omega
    rw [this]
    exact hs
  have hundo := undo_success_eq (recordPing st athleteId sid now).1 athleteId
    (pingAthlete st a sid now) s ha1 (by rw [ha1p]; omega) hlast1
  have hfilter_p : ∀ (l : List Ping),
      (∀ q ∈ l, ¬(q.athleteId = athleteId ∧ q.stationId = sid)) →
      l.filter (fun q =>
        !(q.athleteId == athleteId && q.stationId == s.id)) = l := by
    intro l hl
    rw [List.filter_eq_self]
    intro q hq
    have hnotin := hl q hq
    rw [← hsid]
    simp only [Bool.not_eq_eq_eq_not, Bool.not_true, Bool.and_eq_false_imp,
      beq_iff_eq, beq_eq_false_iff_ne, ne_eq]
    exact fun h1 h2 => hnotin ⟨h1, h2⟩
  have hfilter_s : ∀ (l : List Split),
      (∀ q ∈ l, ¬(q.athleteId = athleteId ∧ q.stationId = sid)) →
      l.filter (fun q =>
        !(q.athleteId == athleteId && q.stationId == s.id)) = l := by
    intro l hl
    rw [List.filter_eq_self]
    intro q hq
    have hnotin := hl q hq
    rw [← hsid]
    simp only [Bool.not_eq_eq_eq_not, Bool.not_true, Bool.and_eq_false_imp,
      beq_iff_eq, beq_eq_false_iff_ne, ne_eq]
    exact fun h1 h2 => hnotin ⟨h1, h2⟩
  have hstatus1 : (pingAthlete st a sid now).status = "finished" ∨
      (pingAthlete st a sid now).status = "active" := by
    rw [pingAthlete]
    dsimp only
    by_cases h1 : decide (st.stationList.length ≤ effProgress a + 1) = true
    · rw [if_pos h1]
      exact Or.inl rfl
    · rw [if_neg h1]
      rcases hstat with h | h
      · rw [if_pos h]
        exact Or.inr rfl
      · by_cases h2 : effStatus a = "ready"
        · rw [if_pos h2]
          exact Or.inr rfl
        · rw [if_neg h2, h]
          exact Or.inr rfl
  have hrestore : undoAthlete (pingAthlete st a sid now) s =
      { a with
        status := "active"
        stationTimes := if a.stationTimes.isEmpty then []
          else a.stationTimes ++ [(sid, now)] } := by
    rw [undoAthlete]
    have hst : (pingAthlete st a sid now).stationTimes =
        a.stationTimes ++ [(sid, now)] := by
      rw [pingAthlete]
      dsimp only
      exact objSet_of_lookup_none hfresh now
    have hdel : objDelete (pingAthlete st a sid now).stationTimes s.id =
        a.stationTimes := by
      rw [hst, objDelete_append, objDelete_of_lookup_none (hsid ▸ hfresh)]
      rw [show objDelete [(sid, now)] s.id = [] by
        simp [objDelete, hsid]]
      rw [List.append_nil]
    have hust : undoStationTimes (pingAthlete st a sid now).stationTimes
        s.id = if a.stationTimes.isEmpty then []
          else a.stationTimes ++ [(sid, now)] := by
      rw [undoStationTimes, hdel, hst]
    have hfin1 : (pingAthlete st a sid now).finishedAt = some now ∨
        (pingAthlete st a sid now).finishedAt = none := by
      rw [pingAthlete]
      dsimp only
      by_cases h1 : decide (st.stationList.length ≤ effProgress a + 1) = true
      · rw [if_pos h1]
        exact Or.inl rfl
      · rw [if_neg h1, hfin]
        exact Or.inr rfl
    simp only [Athlete.mk.injEq]
    refine ⟨?_, hust, ?_, ?_⟩
    · rw [ha1p]
      unfold effProgress
      omega
    · rcases hstatus1 with h | h
      · rw [h]
        rfl
      · rw [h]
        rfl
    · rcases hstatus1 with h | h
      · rw [if_pos h, hfin]
      · rw [if_neg (by rw [h]; decide)]
        rw [pingAthlete]
        dsimp only
        have h1 : ¬ decide (st.stationList.length ≤ effProgress a + 1) =
            true := by
          intro hc
          have := h
          rw [pingAthlete] at this
          dsimp only at this
          rw [if_pos hc] at this
          exact absurd this (by decide)
        rw [if_neg h1, hfin]
  refine ⟨?_, ?_, ?_, ?_, ?_, ?_⟩
  · intro st2 aid2 a2 ha2
    rw [undo, ha2]
    dsimp only
    by_cases h : a2.progress ≤ 0
    · rw [if_pos h]
      simp [h]
    · rw [if_neg h]
      constructor
      · intro hcon
        exfalso
        revert hcon
        split
        · intro hcon
          exact ApiError.noConfusion (Except.error.inj hcon)
        · intro hcon
          exact Except.noConfusion hcon
      · intro hcon
        exact absurd hcon h
  · rw [hundo]
    dsimp only
    rw [show ((pingAthlete st a sid now).progress.toNat - 1) = effProgress a
      by rw [ha1p]; omega, ← hsid]
  · rw [hundo]
    dsimp only
    rw [hbig]
    dsimp only
    rw [List.filter_append, hfilter_p st.pings hnop]
    rw [show (List.filter (fun q =>
        !(q.athleteId == athleteId && q.stationId == s.id))
        [⟨athleteId, sid, effProgress a, now⟩] : List Ping) = [] by
      simp [hsid]]
    rw [List.append_nil]
  · rw [hundo]
    dsimp only
    rw [hbig]
    dsimp only
    rw [List.filter_append, hfilter_s st.splits hnos]
    cases hpt : prevTimeOf st a with
    | some t =>
      dsimp only
      rw [show (List.filter (fun q =>
          !(q.athleteId == athleteId && q.stationId == s.id))
          [⟨athleteId, sid, effProgress a, t, now, (now : Int) - t⟩] :
            List Split) = [] by
        simp [hsid]]
      rw [List.append_nil]
    | none =>
      dsimp only
      simp
  · rw [hundo]
    dsimp only
    rw [lookup_objSet, if_pos rfl, hrestore]
  · intro k hk
    rw [hundo]
    dsimp only
    rw [lookup_objSet, if_neg hk, hbig]
    dsimp only
    rw [lookup_objSet, if_neg hk]

/-- Witness for C3's amended statement: ping `s1` at t = 350 from the state
of `exC1St`, then undo; the Ping facts, the Split facts, progress and
`finishedAt` return to their prior values, while `stationTimes` — non-empty
before the ping — keeps the residual entry for the undone `s1`. -/
theorem undo_inverts_ping_except_ready_status_witness :
    (exC1St.athletes.lookup "a" =
      some ⟨1, [("s0", 100)], "active", none⟩) ∧
    (Tymx.undo (recordPing exC1St "a" "s1" 350).1 "a").2 =
      Except.ok ⟨"s1", 1⟩ ∧
    (Tymx.undo (recordPing exC1St "a" "s1" 350).1 "a").1.pings =
      exC1St.pings ∧
    (Tymx.undo (recordPing exC1St "a" "s1" 350).1 "a").1.splits =
      exC1St.splits ∧
    (Tymx.undo (recordPing exC1St "a" "s1" 350).1 "a").1.athletes.lookup
      "a" = some ⟨1, [("s0", 100), ("s1", 350)], "active", none⟩ := by
  obtain ⟨-, h2, h3, h4, h5, -⟩ := undo_inverts_ping_except_ready_status
    exC1St "a" "s1" 350 ⟨1, [("s0", 100)], "active", none⟩ ⟨"s1"⟩
    (by decide) (by decide) (by decide) (by decide) (Or.inr (by decide))
    (by decide) (by decide) (by decide) (by decide) (by decide) (by decide)
  refine ⟨by decide, h2, h3, h4, ?_⟩
  rw [h5]
  rfl

/-! ### Claim C9 -/

/-- Four athletes of equal progress; the second and fourth carry split
totals of 5 ms and 1 ms, the first and third none. -/
def exC9St : EventState :=
  { status := "active", stationList := [⟨"s0"⟩, ⟨"s1"⟩],
    athletes := [("a1", ⟨1, [("s0", 100)], "active", none⟩),
                 ("a2", ⟨1, [("s0", 100)], "active", none⟩),
                 ("a3", ⟨1, [("s0", 100)], "active", none⟩),
                 ("a4", ⟨1, [("s0", 100)], "active", none⟩)],
    pings := [],
    splits := [⟨"a2", "s1", 1, 100, 105, 5⟩, ⟨"a4", "s1", 1, 100, 101, 1⟩] }

/-- Counterexample to C9: with rows of equal progress `[none, 5, none, 1]`
(totals in store order), the stable sort under the non-transitive
comparator never compares the 5 with the 1 — the leaderboard ranks the
5 ms athlete (rank 2) above the 1 ms athlete (rank 4), although both have
recorded splits and equal progress. -/
theorem leaderboard_equal_progress_totals_counterexample :
    (leaderboard exC9St).map
        (fun q => (q.1.athleteId, q.1.progress, q.1.totalMs, q.2)) =
      [("a1", 1, none, 1), ("a2", 1, some 5, 2),
       ("a3", 1, none, 3), ("a4", 1, some 1, 4)] := by
  simp [exC9St, leaderboard, lbEntry, totalMsOf, effProgress, effStatus,
    freshAthlete, List.mergeSort, List.splitInTwo, List.splitAt,
    List.splitAt.go, List.merge, lbLE, lbCompare, List.enum, List.enumFrom]

/-- C9 amended: in every leaderboard (a) an athlete with strictly greater
progress is ranked strictly higher (smaller rank index); (b) each row's
rank is one plus its sorted position, so tied athletes receive consecutive
ranks; and (c) among athletes of equal progress, lower total milliseconds
ranks higher provided every athlete at that progress value has a recorded
total — with a totalless athlete in between, the non-transitive comparator
lets two rows with totals stay unordered. -/
theorem leaderboard_rank_and_group_order (st : EventState) :
    (∀ i j (hi : i < (leaderboard st).length)
        (hj : j < (leaderboard st).length),
      ((leaderboard st).get ⟨j, hj⟩).1.progress <
        ((leaderboard st).get ⟨i, hi⟩).1.progress → i < j) ∧
    (∀ i (hi : i < (leaderboard st).length),
      ((leaderboard st).get ⟨i, hi⟩).2 = i + 1) ∧
    (∀ p : Nat,
      (∀ e ∈ leaderboard st, e.1.progress = p →
        e.1.totalMs.isSome = true) →
      ∀ i j (hi : i < (leaderboard st).length)
        (hj : j < (leaderboard st).length), i ≤ j →
        ((leaderboard st).get ⟨i, hi⟩).1.progress = p →
        ((leaderboard st).get ⟨j, hj⟩).1.progress = p →
        ∀ x y, ((leaderboard st).get ⟨i, hi⟩).1.totalMs = some x →
          ((leaderboard st).get ⟨j, hj⟩).1.totalMs = some y → x ≤ y) := by
  have hlb : leaderboard st =
      (List.mergeSort (st.athletes.map (lbEntry st.splits)) lbLE).enum.map
        (fun q => (q.2, q.1 + 1)) := rfl
  have hlen : (leaderboard st).length =
      (List.mergeSort (st.athletes.map (lbEntry st.splits)) lbLE).length := by
    rw [hlb]
    simp
  have hq : ∀ n : Nat, (leaderboard st)[n]? =
      ((List.mergeSort (st.athletes.map (lbEntry st.splits)) lbLE)[n]?).map
        (fun e => (e, n + 1)) := by
    intro n
    rw [hlb, List.getElem?_map, List.getElem?_enum]
    cases (List.mergeSort (st.athletes.map (lbEntry st.splits)) lbLE)[n]? <;>
      rfl
  have hentry : ∀ i (hi : i < (leaderboard st).length),
      ((leaderboard st).get ⟨i, hi⟩) =
        ((List.mergeSort (st.athletes.map (lbEntry st.splits))
            lbLE).get ⟨i, by omega⟩, i + 1) := by
    intro i hi
    have h1 : (leaderboard st)[i]? = some ((leaderboard st).get ⟨i, hi⟩) := by
      rw [List.get_eq_getElem]
      exact List.getElem?_eq_getElem hi
    rw [hq i, List.getElem?_eq_getElem (show i <
      (List.mergeSort (st.athletes.map (lbEntry st.splits)) lbLE).length
      by omega)] at h1
    rw [List.get_eq_getElem, List.get_eq_getElem]
    exact (Option.some_inj.mp h1).symm
  have hchain := chain'_mergeSort lbLE lbLE_total
    (st.athletes.map (lbEntry st.splits))
  have hpw : List.Pairwise (fun a b : LBEntry => b.progress ≤ a.progress)
      (List.mergeSort (st.athletes.map (lbEntry st.splits)) lbLE) := by
    haveI : IsTrans LBEntry (fun a b : LBEntry => b.progress ≤ a.progress) :=
      ⟨fun _ _ _ h1 h2 => le_trans h2 h1⟩
    exact List.chain'_iff_pairwise.mp
      (hchain.imp (fun {a b} h => lbLE_progress_le h))
  rw [List.pairwise_iff_getElem] at hpw
  refine ⟨?_, ?_, ?_⟩
  · intro i j hi hj h
    rw [hentry i hi, hentry j hj] at h
    dsimp only at h
    by_contra hc
    rcases Nat.lt_or_ge j i with hlt | hge
    · have h2 := hpw j i (by omega) (by omega) hlt
      have h3 : (((List.mergeSort (st.athletes.map (lbEntry st.splits))
          lbLE).get ⟨i, by omega⟩ : LBEntry)).progress ≤
          ((List.mergeSort (st.athletes.map (lbEntry st.splits))
            lbLE).get ⟨j, by omega⟩ : LBEntry).progress := h2
      exact absurd h (not_lt.mpr h3)
    · have hij : i = j := by omega
      subst hij
      exact absurd h (lt_irrefl _)
  · intro i hi
    rw [hentry i hi]
  · intro p hall i j hi hj hij hpi hpj x y hx hy
    have hallL : ∀ e ∈ List.mergeSort (st.athletes.map (lbEntry st.splits))
        lbLE, e.progress = p → e.totalMs.isSome = true := by
      intro e he hep
      obtain ⟨⟨n, hn⟩, hget⟩ := List.mem_iff_get.mp he
      have hmem : ((leaderboard st).get ⟨n, by omega⟩) ∈ leaderboard st :=
        List.get_mem _ n (by omega)
      rw [hentry n (by omega)] at hmem
      have hgn : (List.mergeSort (st.athletes.map (lbEntry st.splits))
          lbLE).get ⟨n, by omega⟩ = e := hget
      rw [hgn] at hmem
      exact hall _ hmem hep
    rw [hentry i hi] at hpi hx
    rw [hentry j hj] at hpj hy
    dsimp only at hpi hpj hx hy
    exact sorted_totals_mono _ hchain p hallL i (by omega) hpi j hij
      (by omega) hpj x y hx hy

/-- Witness for C9's amended statement at the concrete four-athlete state:
the top row carries rank 1. -/
theorem leaderboard_rank_and_group_order_witness :
    0 < (leaderboard exC9St).length ∧
    ((leaderboard exC9St).get
      ⟨0, by simp [leaderboard, exC9St]⟩).2 = 0 + 1 :=
  ⟨by simp [leaderboard, exC9St],
   (leaderboard_rank_and_group_order exC9St).2.1 0
     (by simp [leaderboard, exC9St])⟩

end Tymx
